import Mathlib

/-!
# Verification of the `react-web` ScrollView component

Shallow embedding of `src/Libraries/ScrollView/ScrollView.web.js` and of the
spec-described collaborators (the scroll-event throttle utility and the
responder arbiter mixin) that the repository imports but whose sources are
not included. Source-derived definitions are translated directly from the
JavaScript; definitions for the missing collaborators are marked
"Modelled from the spec".
-/

namespace ScrollViewWeb

/-! ## JavaScript value modelling helpers

Props that may be `undefined` in JavaScript are modelled as `Option`;
JavaScript truthiness of a numeric prop (`undefined` and `0` are falsy,
every other number — including negatives — is truthy) is made explicit. -/

/-- JavaScript truthiness of an optional numeric prop: `undefined` and `0`
are falsy; any other number, negative numbers included, is truthy. -/
def jsNumTruthy : Option Int → Bool
  | none => false
  | some n => n != 0

/-! ## `handleScroll` (ScrollView.web.js lines 300-319)

`handleScroll(e)` executes `this.props.onScroll && this.props.onScroll(e)`:
when `onScroll` is absent the conjunction short-circuits and nothing is
invoked; when present, `onScroll` is invoked once with `e` unmodified.
We model the method by the list of `onScroll` invocations it performs. -/

/-- The list of arguments with which `handleScroll e` invokes the
application's `onScroll` callback, given whether the `onScroll` prop is
present (`this.props.onScroll && this.props.onScroll(e)`). -/
def handleScrollCalls {E : Type} (hasOnScroll : Bool) (e : E) : List E :=
  if hasOnScroll then [e] else []

/-! ## Scroll handler selection in `render` (ScrollView.web.js lines 357-360)

```js
let handleScroll = () => {};
if (this.props.scrollEventThrottle && this.props.onScroll) {
  handleScroll = throttle(this.handleScroll, this.props.scrollEventThrottle);
}
```
The chosen handler is installed as the widget's scroll-notification handler
(`onScrollShouldSetResponder: handleScroll`, with the original `onScroll`
prop replaced by a no-op, lines 378-380). -/

/-- The scroll handler `render` installs: either the no-op `() => {}` or the
throttled wrapper of `this.handleScroll`, carrying the raw (unclamped)
`scrollEventThrottle` value that is handed to the throttle utility. -/
inductive ScrollHandlerKind : Type
  | noop : ScrollHandlerKind
  | throttled : Int → ScrollHandlerKind
deriving DecidableEq, Repr

/-- Handler selection from `render`: the throttled wrapper is chosen exactly
when `this.props.scrollEventThrottle && this.props.onScroll` is truthy;
otherwise the handler stays the no-op `() => {}`. -/
def renderScrollHandler (scrollEventThrottle : Option Int) (hasOnScroll : Bool) :
    ScrollHandlerKind :=
  if jsNumTruthy scrollEventThrottle && hasOnScroll then
    ScrollHandlerKind.throttled (scrollEventThrottle.getD 0)
  else
    ScrollHandlerKind.noop

/-! ## `scrollTo` / `scrollWithoutAnimationTo` (ScrollView.web.js lines 282-298)

```js
scrollTo(destY?: number, destX?: number) {
  this.scrollWithoutAnimationTo(destY, destX);
}
scrollWithoutAnimationTo(destY?: number, destX?: number) {
  let scrollView = ReactDOM.findDOMNode(this.refs[SCROLLVIEW]);
  scrollView.scrollTop = destY || 0;
  scrollView.scrollLeft = destX || 0;
}
```
Note the parameter order: the FIRST parameter is `destY` (vertical), the
second `destX` (horizontal). `v || 0` maps an absent (or zero) argument
to `0`. The DOM node is modelled by its two scroll offsets. -/

/-- The underlying DOM scroll primitive: its vertical (`scrollTop`) and
horizontal (`scrollLeft`) scroll offsets. -/
structure DOMScrollNode where
  scrollTop : Int
  scrollLeft : Int
deriving DecidableEq, Repr

/-- `v || 0` applied to an optional numeric argument: `undefined` (and `0`)
become `0`, any other number passes through. -/
def jsOrZero (v : Option Int) : Int := v.getD 0

/-- `scrollWithoutAnimationTo(destY, destX)`: sets `scrollTop = destY || 0`
and `scrollLeft = destX || 0` on the scroll node, with no animation. -/
def scrollWithoutAnimationTo (destY destX : Option Int) (_n : DOMScrollNode) :
    DOMScrollNode :=
  { scrollTop := jsOrZero destY, scrollLeft := jsOrZero destX }

/-- `scrollTo(destY, destX)` simply delegates to
`scrollWithoutAnimationTo(destY, destX)`. -/
def scrollTo (destY destX : Option Int) (n : DOMScrollNode) : DOMScrollNode :=
  scrollWithoutAnimationTo destY destX n

/-! ## Content container style (ScrollView.web.js lines 321-345 and 396-410)

```js
let contentContainerStyle = [
  styles.contentContainer,
  this.props.horizontal && styles.contentContainerHorizontal,
  this.props.contentContainerStyle,
];
...
contentContainer: { position: 'absolute', minWidth: '100%' },
contentContainerHorizontal: { alignSelf: 'flex-start', flexDirection: 'row' },
```
We model the merged style record for the fields these entries can set
(the user-supplied `contentContainerStyle` passthrough is the identity
overlay and is not part of the claims). -/

/-- CSS `position` values occurring in the component's styles. -/
inductive CSSPosition : Type
  | staticPos : CSSPosition
  | absolute : CSSPosition
deriving DecidableEq, Repr

/-- Flex `alignSelf` values occurring in the component's styles. -/
inductive CSSAlignSelf : Type
  | auto : CSSAlignSelf
  | flexStart : CSSAlignSelf
deriving DecidableEq, Repr

/-- Flex `flexDirection` values: `column` is the framework default,
`row` is set by `contentContainerHorizontal`. -/
inductive CSSFlexDirection : Type
  | column : CSSFlexDirection
  | row : CSSFlexDirection
deriving DecidableEq, Repr

/-- The resolved layout directives of the content container. -/
structure ContentContainerStyle where
  position : CSSPosition
  minWidthFull : Bool
  alignSelf : CSSAlignSelf
  flexDirection : CSSFlexDirection
deriving DecidableEq, Repr

/-- The merged content-container style computed in `render`, as a function of
the props the spec names: `styles.contentContainer` always applies, and
`styles.contentContainerHorizontal` is merged on top exactly when
`horizontal` is truthy. `centerContent`, `alwaysBounceHorizontal` and
`alwaysBounceVertical` do not occur in the style computation. -/
def contentContainerStyleOf (horizontal centerContent
    alwaysBounceHorizontal alwaysBounceVertical : Bool) : ContentContainerStyle :=
  let _ := centerContent
  let _ := alwaysBounceHorizontal
  let _ := alwaysBounceVertical
  { position := CSSPosition.absolute
    minWidthFull := true
    alignSelf := if horizontal then CSSAlignSelf.flexStart else CSSAlignSelf.auto
    flexDirection := if horizontal then CSSFlexDirection.row else CSSFlexDirection.column }

/-! ## `alwaysBounce*` defaults (ScrollView.web.js lines 347-355)

```js
let alwaysBounceHorizontal =
  this.props.alwaysBounceHorizontal !== undefined ?
    this.props.alwaysBounceHorizontal : this.props.horizontal;
let alwaysBounceVertical =
  this.props.alwaysBounceVertical !== undefined ?
    this.props.alwaysBounceVertical : !this.props.horizontal;
```
`horizontal` is modelled by its truthiness. -/

/-- Resolved `alwaysBounceHorizontal`: the prop itself when provided
(`!== undefined`), otherwise `horizontal`. -/
def resolveAlwaysBounceHorizontal (alwaysBounceHorizontal : Option Bool)
    (horizontal : Bool) : Bool :=
  match alwaysBounceHorizontal with
  | some b => b
  | none => horizontal

/-- Resolved `alwaysBounceVertical`: the prop itself when provided
(`!== undefined`), otherwise `!horizontal`. -/
def resolveAlwaysBounceVertical (alwaysBounceVertical : Option Bool)
    (horizontal : Bool) : Bool :=
  match alwaysBounceVertical with
  | some b => b
  | none => !horizontal

/-! ## Scroll Event Throttle (spec §3 `ThrottleState`, §4.2)

The component builds its rate limiter with `throttle(this.handleScroll,
this.props.scrollEventThrottle)` from the external `domkit/throttle`
module, which is not under `src/`. The throttle's observable behaviour is
therefore modelled from the spec's contract (§4.2): forward immediately
when the interval is 0 or a full interval has elapsed since
`lastInvokedAt`; otherwise remember the event as `pendingArgs`
(last-write-wins) and fire a deferred forward at
`lastInvokedAt + intervalMs`. Timer callbacks that fall due strictly
before an incoming event are delivered first (host event loop order). -/

/-- Modelled from the spec: the `ThrottleState` of §3 — `lastInvokedAt` is
the timestamp of the last forwarded call (`none` before any call) and
`pendingArgs` is the most recent not-yet-forwarded payload. The throttle
implementation (`domkit/throttle`) is not under `src/`. -/
structure ThrottleState (E : Type) where
  lastInvokedAt : Option Nat
  pendingArgs : Option E
deriving DecidableEq, Repr

/-- The throttle state of a fresh subscription: nothing forwarded yet and
no pending payload. -/
def throttleInit (E : Type) : ThrottleState E := ⟨none, none⟩

/-- Modelled from the spec: deliver the deferred forward scheduled at
`lastInvokedAt + intervalMs` if it falls due strictly before time `now` —
it forwards `pendingArgs` (the latest value at fire time), updates
`lastInvokedAt` to the fire time and clears `pendingArgs`. Returns the
forwarded calls (timestamp, payload) and the successor state. -/
def fireDue {E : Type} (intervalMs now : Nat) (s : ThrottleState E) :
    List (Nat × E) × ThrottleState E :=
  match s.lastInvokedAt, s.pendingArgs with
  | some l, some e =>
      if l + intervalMs < now then ([(l + intervalMs, e)], ⟨some (l + intervalMs), none⟩)
      else ([], s)
  | _, _ => ([], s)

/-- Modelled from the spec: `observe(event)` at time `now` (§4.2). With
`intervalMs = 0` forward immediately; otherwise forward immediately when a
full interval has elapsed since `lastInvokedAt` (setting
`lastInvokedAt = now` and clearing `pendingArgs`), else store the event as
`pendingArgs` for the deferred forward at `lastInvokedAt + intervalMs`
(last-write-wins). -/
def observe {E : Type} (intervalMs now : Nat) (e : E) (s : ThrottleState E) :
    List (Nat × E) × ThrottleState E :=
  if intervalMs = 0 then ([(now, e)], s)
  else
    match s.lastInvokedAt with
    | none => ([(now, e)], ⟨some now, none⟩)
    | some l =>
        if l + intervalMs ≤ now then ([(now, e)], ⟨some now, none⟩)
        else ([], ⟨some l, some e⟩)

/-- Process a time-ordered list of raw scroll notifications: before each
event, due timer callbacks fire; then the event is observed. Returns all
forwarded calls in order together with the final throttle state. -/
def runThrottleAux {E : Type} (intervalMs : Nat) :
    List (Nat × E) → ThrottleState E → List (Nat × E) × ThrottleState E
  | [], s => ([], s)
  | (t, e) :: rest, s =>
      let fd := fireDue intervalMs t s
      let ob := observe intervalMs t e fd.2
      let r := runThrottleAux intervalMs rest ob.2
      (fd.1 ++ ob.1 ++ r.1, r.2)

/-- The deferred forward still scheduled after the last event, if any: it
fires at `lastInvokedAt + intervalMs` carrying `pendingArgs`. -/
def flushPending {E : Type} (intervalMs : Nat) (s : ThrottleState E) : List (Nat × E) :=
  match s.lastInvokedAt, s.pendingArgs with
  | some l, some e => [(l + intervalMs, e)]
  | _, _ => []

/-- The full forwarded-call trace from an arbitrary throttle state: the
run's forwards followed by the trailing deferred forward still scheduled
at the end. -/
def runThrottleFull {E : Type} (intervalMs : Nat) (events : List (Nat × E))
    (s : ThrottleState E) : List (Nat × E) :=
  (runThrottleAux intervalMs events s).1 ++
    flushPending intervalMs (runThrottleAux intervalMs events s).2

/-- All calls the throttled wrapper forwards, in order, for a time-ordered
burst of raw scroll notifications, including the trailing deferred forward
that eventually fires after the burst ends. -/
def throttleRun {E : Type} (intervalMs : Nat) (events : List (Nat × E)) :
    List (Nat × E) :=
  runThrottleFull intervalMs events (throttleInit E)

/-! ## The full scroll pipeline installed by `render`

Raw scroll notifications reach the handler chosen by `render`
(lines 357-360, installed at lines 378-380); the throttled wrapper
forwards (rate-limited) to `this.handleScroll`, which invokes the
application's `onScroll`. -/

/-- The arguments with which the application's `onScroll` callback is
invoked for a time-ordered list of raw scroll notifications, under the
handler `render` installs: none for the no-op handler, and the throttled
forwards piped through `handleScroll` otherwise. -/
def onScrollInvocations {E : Type} (scrollEventThrottle : Option Int)
    (hasOnScroll : Bool) (events : List (Nat × E)) : List E :=
  match renderScrollHandler scrollEventThrottle hasOnScroll with
  | ScrollHandlerKind.noop => []
  | ScrollHandlerKind.throttled i =>
      (throttleRun i.toNat events).flatMap (fun p => handleScrollCalls hasOnScroll p.2)

/-! ## Responder Arbiter (spec §3 `ResponderState`, §4.1, §5)

The responder behaviour is supplied by `ScrollResponder.Mixin`, imported
from the module `ReactScrollResponder`, which is not under `src/`;
`render` (lines 367-386) wires its handlers and line 412 grafts the mixin
onto the class. The arbitration protocol is therefore modelled from the
spec: a single application-wide registry slot, per-widget phases, and the
two-step claim/terminate protocol with the default allow policy. -/

/-- Phases of a widget's responder state machine (spec §3). `Terminating`
is transient: the default-allow policy resolves a termination request
synchronously within the step that receives it. -/
inductive ResponderPhase : Type
  | Idle : ResponderPhase
  | Claiming : ResponderPhase
  | Active : ResponderPhase
  | Terminating : ResponderPhase
deriving DecidableEq, Repr

/-- Lifecycle notifications the arbiter emits to a widget (spec §4.1). -/
inductive ResponderNotif : Type
  | grant : Nat → ResponderNotif
  | reject : Nat → ResponderNotif
  | release : Nat → ResponderNotif
  | terminate : Nat → ResponderNotif
deriving DecidableEq, Repr

/-- The shared arbitration state: the application-wide current-responder
registry slot and every widget's phase. -/
structure ArbiterState where
  owner : Option Nat
  phase : Nat → ResponderPhase

/-- Touch lifecycle inputs across all widget instances: `touchStart w`
(widget `w` observes a touch-start), `touchMove w` (movement past the
claim threshold, triggering a claim attempt), `touchEnd w`,
`termRequest w` (the host requests that `w` relinquish ownership on behalf
of a competitor), and `unmountWidget w` (teardown). -/
inductive TouchAction : Type
  | touchStart : Nat → TouchAction
  | touchMove : Nat → TouchAction
  | touchEnd : Nat → TouchAction
  | termRequest : Nat → TouchAction
  | unmountWidget : Nat → TouchAction
deriving DecidableEq, Repr

/-- Pointwise phase update. -/
def setPhase (f : Nat → ResponderPhase) (w : Nat) (p : ResponderPhase) :
    Nat → ResponderPhase :=
  fun v => if v = w then p else f v

/-- The initial arbitration state: the registry slot is empty and every
widget is `Idle`. -/
def arbiterInit : ArbiterState := ⟨none, fun _ => ResponderPhase.Idle⟩

/-- Modelled from the spec: one synchronous arbitration step (§4.1, §5);
`ScrollResponder.Mixin` (module `ReactScrollResponder`) is not under
`src/`. Touch-start moves an idle widget to `Claiming`; a qualifying move
attempts the claim — granted when the slot is empty, otherwise resolved by
a termination-request round against the current owner (default policy:
allow, emitting `terminate` to the old owner); touch-end releases an
active owner (emitting `release`) or abandons a claim; a host termination
request against an active owner is allowed by default (emitting
`terminate`) and denied in any other phase (§4.1 race rule); unmount of an
active owner forcibly releases the slot (emitting `release`). -/
def arbiterStep (s : ArbiterState) (a : TouchAction) :
    ArbiterState × List ResponderNotif :=
  match a with
  | TouchAction.touchStart w =>
      if s.phase w = ResponderPhase.Idle then
        ({ s with phase := setPhase s.phase w ResponderPhase.Claiming }, [])
      else (s, [])
  | TouchAction.touchMove w =>
      if s.phase w = ResponderPhase.Claiming then
        match s.owner with
        | none =>
            ({ owner := some w, phase := setPhase s.phase w ResponderPhase.Active },
             [ResponderNotif.grant w])
        | some o =>
            if o = w then (s, [])
            else if s.phase o = ResponderPhase.Active then
              ({ owner := some w,
                 phase := setPhase (setPhase s.phase o ResponderPhase.Idle) w
                   ResponderPhase.Active },
               [ResponderNotif.terminate o, ResponderNotif.grant w])
            else
              ({ s with phase := setPhase s.phase w ResponderPhase.Idle },
               [ResponderNotif.reject w])
      else (s, [])
  | TouchAction.touchEnd w =>
      if s.phase w = ResponderPhase.Active then
        ({ owner := none, phase := setPhase s.phase w ResponderPhase.Idle },
         [ResponderNotif.release w])
      else if s.phase w = ResponderPhase.Claiming then
        ({ s with phase := setPhase s.phase w ResponderPhase.Idle }, [])
      else (s, [])
  | TouchAction.termRequest w =>
      if s.phase w = ResponderPhase.Active then
        ({ owner := none, phase := setPhase s.phase w ResponderPhase.Idle },
         [ResponderNotif.terminate w])
      else (s, [])
  | TouchAction.unmountWidget w =>
      if s.phase w = ResponderPhase.Active then
        ({ owner := none, phase := setPhase s.phase w ResponderPhase.Idle },
         [ResponderNotif.release w])
      else ({ s with phase := setPhase s.phase w ResponderPhase.Idle }, [])

/-- The arbitration state reached after a sequence of touch actions from
the initial state. -/
def runArbiter (acts : List TouchAction) : ArbiterState :=
  acts.foldl (fun s a => (arbiterStep s a).1) arbiterInit

/-- The registry coherence invariant: a widget's phase is `Active` exactly
when it owns the shared registry slot. -/
def ArbiterInv (s : ArbiterState) : Prop :=
  ∀ w, s.phase w = ResponderPhase.Active ↔ s.owner = some w

/-! ## `getContentOffset` -/

/-- Modelled from the spec: `getContentOffset() -> {x,y}` reads the
underlying primitive's current offset (spec §6). The operation is supplied
via `ScrollResponder.Mixin` (module `ReactScrollResponder`), which is not
under `src/`; the ScrollView class itself defines no such method. Returns
the `(x, y)` pair: `x` is the horizontal offset (`scrollLeft`), `y` the
vertical offset (`scrollTop`). -/
def getContentOffset (n : DOMScrollNode) : Int × Int :=
  (n.scrollLeft, n.scrollTop)

/-! # Theorems -/

/-! ## Throttle payload provenance: every forwarded payload was observed -/

theorem fireDue_payload {E : Type} (i t : Nat) (s : ThrottleState E) (S : E → Prop)
    (hs : ∀ e, s.pendingArgs = some e → S e) :
    (∀ q ∈ (fireDue i t s).1, S q.2) ∧
    (∀ e, (fireDue i t s).2.pendingArgs = some e → S e) := by
  rcases s with ⟨last, pending⟩
  cases last <;> cases pending <;> simp only [fireDue] at hs ⊢
  · exact ⟨by simp, by simp⟩
  · exact ⟨by simp, by simpa using hs⟩
  · exact ⟨by simp, by simp⟩
  · next l e =>
      split
      · exact ⟨by simpa using hs e rfl, by simp⟩
      · exact ⟨by simp, by simpa using hs⟩

theorem observe_payload {E : Type} (i t : Nat) (e : E) (s : ThrottleState E)
    (S : E → Prop) (hs : ∀ e', s.pendingArgs = some e' → S e') (he : S e) :
    (∀ q ∈ (observe i t e s).1, S q.2) ∧
    (∀ e', (observe i t e s).2.pendingArgs = some e' → S e') := by
  rcases s with ⟨last, pending⟩
  by_cases h0 : i = 0
  · refine ⟨?_, ?_⟩ <;> simp only [observe, h0, if_pos]
    · simpa using he
    · simpa using hs
  · cases last with
    | none =>
        refine ⟨?_, ?_⟩ <;> simp only [observe, h0, if_neg, if_false] <;> simp
        exact he
    | some l =>
        by_cases hle : l + i ≤ t
        · refine ⟨?_, ?_⟩ <;> simp [observe, h0, hle]
          exact he
        · refine ⟨?_, ?_⟩ <;> simp [observe, h0, hle]
          exact he

theorem runThrottleAux_payload {E : Type} (i : Nat) (events : List (Nat × E))
    (S : E → Prop) :
    ∀ (s : ThrottleState E), (∀ e, s.pendingArgs = some e → S e) →
      (∀ p ∈ events, S p.2) →
      (∀ q ∈ (runThrottleAux i events s).1, S q.2) ∧
      (∀ e, (runThrottleAux i events s).2.pendingArgs = some e → S e) := by
  induction events with
  | nil => intro s hs _; simpa [runThrottleAux] using hs
  | cons p rest ih =>
      intro s hs he
      obtain ⟨t, e⟩ := p
      have hfd := fireDue_payload i t s S hs
      have hob := observe_payload i t e (fireDue i t s).2 S hfd.2
        (he (t, e) (List.mem_cons_self _ _))
      have hrest := ih (observe i t e (fireDue i t s).2).2 hob.2
        (fun q hq => he q (List.mem_cons_of_mem _ hq))
      simp only [runThrottleAux]
      constructor
      · intro q hq
        rcases List.mem_append.1 hq with hq | hq
        · rcases List.mem_append.1 hq with hq | hq
          · exact hfd.1 q hq
          · exact hob.1 q hq
        · exact hrest.1 q hq
      · exact hrest.2

theorem flushPending_payload {E : Type} (i : Nat) (s : ThrottleState E)
    (S : E → Prop) (hs : ∀ e, s.pendingArgs = some e → S e) :
    ∀ q ∈ flushPending i s, S q.2 := by
  rcases s with ⟨last, pending⟩
  cases last <;> cases pending <;> simp only [flushPending] at hs ⊢
  · simp
  · simp
  · simp
  · simpa using hs _ rfl

theorem throttleRun_payload {E : Type} (i : Nat) (events : List (Nat × E)) :
    ∀ q ∈ throttleRun i events, q.2 ∈ events.map Prod.snd := by
  intro q hq
  simp only [throttleRun, runThrottleFull] at hq
  have h := runThrottleAux_payload i events (fun e => e ∈ events.map Prod.snd)
    (throttleInit E) (by simp [throttleInit]) (by
      intro p hp
      exact List.mem_map.2 ⟨p, hp, rfl⟩)
  rcases List.mem_append.1 hq with hq | hq
  · exact h.1 q hq
  · exact flushPending_payload i _ _ h.2 q hq


/-- C1 counterexample: with `scrollEventThrottle = 0` and `onScroll`
configured, a single observed scroll event is NOT forwarded to `onScroll`
(the installed handler is the no-op, because `0` is falsy in the guard
`this.props.scrollEventThrottle && this.props.onScroll`), contradicting
"forwarded exactly once". -/
theorem throttle_zero_drops_event_cex :
    onScrollInvocations (some 0) true [((0 : Nat), (7 : Nat))] ≠ [7] := by
  decide

/-- C1 (amended): when the configured throttle interval is `0` (or the
prop is absent), `render` installs the no-op scroll handler, so no
observed scroll event is ever forwarded to the application's `onScroll`
callback; events are forwarded only when a nonzero interval and an
`onScroll` prop are both configured. -/
theorem throttle_zero_installs_noop {E : Type} (hasOnScroll : Bool)
    (events : List (Nat × E)) :
    renderScrollHandler (some 0) hasOnScroll = ScrollHandlerKind.noop ∧
    renderScrollHandler none hasOnScroll = ScrollHandlerKind.noop ∧
    onScrollInvocations (some 0) hasOnScroll events = [] ∧
    onScrollInvocations none hasOnScroll events = [] := by
  refine ⟨rfl, rfl, ?_, ?_⟩ <;> simp [onScrollInvocations, renderScrollHandler, jsNumTruthy]

/-- C5 counterexample: calling `scrollTo(3, 5)` does not set the
horizontal offset (`scrollLeft`) to the first argument and the vertical
offset (`scrollTop`) to the second, as the claim's `scrollTo(x, y)`
reading requires: the code stores the FIRST argument in `scrollTop` and
the second in `scrollLeft`. -/
theorem scrollTo_argument_order_cex :
    ¬ ((scrollTo (some 3) (some 5) ⟨0, 0⟩).scrollLeft = 3 ∧
       (scrollTo (some 3) (some 5) ⟨0, 0⟩).scrollTop = 5) := by
  decide

/-- C5 (amended): `scrollTo(destY, destX)` takes the VERTICAL offset as
its first parameter and the horizontal offset as its second; it sets
`scrollTop = destY || 0` and `scrollLeft = destX || 0` on the underlying
primitive, by direct delegation to `scrollWithoutAnimationTo` (no
animation). -/
theorem scrollTo_sets_offsets (destY destX : Option Int) (n : DOMScrollNode) :
    (scrollTo destY destX n).scrollTop = destY.getD 0 ∧
    (scrollTo destY destX n).scrollLeft = destX.getD 0 ∧
    scrollTo destY destX n = scrollWithoutAnimationTo destY destX n :=
  ⟨rfl, rfl, rfl⟩

/-- C6 counterexample: the `centerContent` setting has no effect on the
content container's layout directives (the claim's "unless `centerContent`
requests shrink-to-fit centering" never happens), and in horizontal mode
the cross-axis directive is `alignSelf: flex-start` (shrink-to-fit) even
with `centerContent` off, so the container does not match the outer frame
across the scroll axis. -/
theorem contentContainer_centerContent_cex :
    contentContainerStyleOf false true false false =
      contentContainerStyleOf false false false false ∧
    contentContainerStyleOf true true false false =
      contentContainerStyleOf true false false false ∧
    (contentContainerStyleOf true false false false).alignSelf =
      CSSAlignSelf.flexStart := by
  decide

/-- C6 (amended): the content container's layout directives are a pure
function of `horizontal` alone — `centerContent`,
`alwaysBounceHorizontal` and `alwaysBounceVertical` have no effect on
them. The container is always absolutely positioned with
`minWidth: 100%`; when `horizontal` it additionally gets
`alignSelf: flex-start` and `flexDirection: row`. -/
theorem contentContainer_pure_in_horizontal
    (h c c' aH aH' aV aV' : Bool) :
    contentContainerStyleOf h c aH aV = contentContainerStyleOf h c' aH' aV' ∧
    contentContainerStyleOf h c aH aV =
      ⟨CSSPosition.absolute, true,
       if h then CSSAlignSelf.flexStart else CSSAlignSelf.auto,
       if h then CSSFlexDirection.row else CSSFlexDirection.column⟩ := by
  cases h <;> exact ⟨rfl, rfl⟩

/-- C7 counterexample: a negative throttle interval is NOT normalized to
the behaviour of `0`: `-1` is truthy in the guard, so `render` installs
the throttled handler (with the raw `-1` handed to the throttle utility),
whereas `0` yields the no-op handler. -/
theorem negative_throttle_not_clamped_cex :
    renderScrollHandler (some (-1)) true ≠ renderScrollHandler (some 0) true := by
  decide

/-- C7 (amended): a negative throttle interval is passed through
unclamped — since any nonzero number is truthy, `render` takes the
throttled path and hands the negative value to the throttle utility
unchanged; only `0` (or an absent prop) disables forwarding. -/
theorem negative_throttle_passes_through (n : Int) (hn : n < 0) :
    renderScrollHandler (some n) true = ScrollHandlerKind.throttled n := by
  have h0 : n ≠ 0 := by omega
  simp [renderScrollHandler, jsNumTruthy, h0]

/-- Witness for the amended C7 theorem at `n = -1`. -/
theorem negative_throttle_passes_through_witness :
    renderScrollHandler (some (-1)) true = ScrollHandlerKind.throttled (-1) :=
  negative_throttle_passes_through (-1) (by decide)

/-- C8: `getContentOffset()` returns the underlying primitive's current
offset as the `{x, y}` pair (`x = scrollLeft`, `y = scrollTop`), and
reading after `scrollWithoutAnimationTo(destY, destX)` returns exactly the
offsets just written. -/
theorem getContentOffset_reads_current_offset (destY destX : Option Int)
    (n : DOMScrollNode) :
    getContentOffset n = (n.scrollLeft, n.scrollTop) ∧
    getContentOffset (scrollWithoutAnimationTo destY destX n) =
      (destX.getD 0, destY.getD 0) :=
  ⟨rfl, rfl⟩

/-- C9: `alwaysBounceHorizontal` defaults to `horizontal` and
`alwaysBounceVertical` defaults to `!horizontal` when the props are
`undefined`; an explicitly provided value passes through unchanged. -/
theorem alwaysBounce_defaults (h b : Bool) :
    resolveAlwaysBounceHorizontal none h = h ∧
    resolveAlwaysBounceVertical none h = !h ∧
    resolveAlwaysBounceHorizontal (some b) h = b ∧
    resolveAlwaysBounceVertical (some b) h = b :=
  ⟨rfl, rfl, rfl, rfl⟩

/-- C10: when the `onScroll` prop is absent, `handleScroll` performs no
callback invocation at all (the conjunction
`this.props.onScroll && this.props.onScroll(e)` short-circuits), for every
event; when the prop is present the event is passed through unmodified. -/
theorem handleScroll_safe_without_onScroll {E : Type} (e : E) :
    handleScrollCalls false e = [] ∧ handleScrollCalls true e = [e] :=
  ⟨rfl, rfl⟩

theorem flatMap_singleton_snd {E : Type} (l : List (Nat × E)) :
    (l.flatMap fun p => [p.2]) = l.map Prod.snd := by
  induction l with
  | nil => rfl
  | cons a l ih => simp [ih]

/-- C2: with a positive throttle interval and an `onScroll` callback
configured, `render` installs the throttled wrapper of `handleScroll`, so
raw scroll notifications flow through the Scroll Event Throttle; the calls
reaching the application's `onScroll` are exactly the throttle's
rate-limited forwards, each carrying a payload that was actually
observed. -/
theorem scroll_events_flow_through_throttle {E : Type} (i : Int) (hi : 0 < i)
    (events : List (Nat × E)) :
    renderScrollHandler (some i) true = ScrollHandlerKind.throttled i ∧
    onScrollInvocations (some i) true events =
      (throttleRun i.toNat events).map Prod.snd ∧
    ∀ x ∈ onScrollInvocations (some i) true events, x ∈ events.map Prod.snd := by
  have h0 : i ≠ 0 := by omega
  have hrh : renderScrollHandler (some i) true = ScrollHandlerKind.throttled i := by
    simp [renderScrollHandler, jsNumTruthy, h0]
  have heq : onScrollInvocations (some i) true events =
      (throttleRun i.toNat events).map Prod.snd := by
    simp only [onScrollInvocations, hrh, handleScrollCalls, if_true]
    exact flatMap_singleton_snd _
  refine ⟨hrh, heq, ?_⟩
  intro x hx
  rw [heq] at hx
  rcases List.mem_map.1 hx with ⟨q, hq, rfl⟩
  exact throttleRun_payload _ _ q hq

/-- Witness for the C2 theorem: interval 100, a concrete two-event burst. -/
theorem scroll_events_flow_through_throttle_witness :
    renderScrollHandler (some 100) true = ScrollHandlerKind.throttled 100 ∧
    onScrollInvocations (some 100) true [((0 : Nat), (5 : Nat)), (10, 6)] =
      (throttleRun (100 : Int).toNat [((0 : Nat), (5 : Nat)), (10, 6)]).map Prod.snd ∧
    ∀ x ∈ onScrollInvocations (some 100) true [((0 : Nat), (5 : Nat)), (10, 6)],
      x ∈ [((0 : Nat), (5 : Nat)), (10, 6)].map Prod.snd :=
  scroll_events_flow_through_throttle 100 (by decide) _

theorem setPhase_same (f : Nat → ResponderPhase) (w : Nat) (p : ResponderPhase) :
    setPhase f w p w = p := by
  simp [setPhase]

theorem setPhase_other (f : Nat → ResponderPhase) (w p v) (hv : v ≠ w) :
    setPhase f w p v = f v := by
  simp [setPhase, hv]

theorem arbiterStep_inv (s : ArbiterState) (a : TouchAction) (h : ArbiterInv s) :
    ArbiterInv (arbiterStep s a).1 := by
  have hOwner : ∀ o, s.owner = some o → s.phase o = ResponderPhase.Active :=
    fun o ho => (h o).2 ho
  cases a with
  | touchStart w =>
      simp only [arbiterStep]
      by_cases hw : s.phase w = ResponderPhase.Idle
      · rw [if_pos hw]
        intro v
        dsimp only
        by_cases hvw : v = w
        · subst hvw
          rw [setPhase_same]
          refine iff_of_false (by decide) ?_
          intro ho
          have := hOwner v ho
          rw [hw] at this
          simp at this
        · rw [setPhase_other _ _ _ _ hvw]
          exact h v
      · rw [if_neg hw]
        exact h
  | touchMove w =>
      simp only [arbiterStep]
      by_cases hw : s.phase w = ResponderPhase.Claiming
      · rw [if_pos hw]
        rcases ho : s.owner with _ | o
        · dsimp only
          intro v
          dsimp only
          by_cases hvw : v = w
          · subst hvw
            rw [setPhase_same]
            simp
          · rw [setPhase_other _ _ _ _ hvw]
            refine iff_of_false ?_ ?_
            · intro hv
              have := (h v).1 hv
              rw [ho] at this
              simp at this
            · intro hc
              exact hvw (Option.some.inj hc).symm
        · dsimp only
          by_cases how : o = w
          · subst how
            have := hOwner o ho
            rw [hw] at this
            simp at this
          · by_cases hoa : s.phase o = ResponderPhase.Active
            · rw [if_neg how, if_pos hoa]
              intro v
              dsimp only
              by_cases hvw : v = w
              · subst hvw
                rw [setPhase_same]
                simp
              · by_cases hvo : v = o
                · subst hvo
                  rw [setPhase_other _ _ _ _ hvw, setPhase_same]
                  refine iff_of_false (by decide) ?_
                  intro hc
                  exact hvw (Option.some.inj hc).symm
                · rw [setPhase_other _ _ _ _ hvw, setPhase_other _ _ _ _ hvo]
                  refine iff_of_false ?_ ?_
                  · intro hv
                    have := (h v).1 hv
                    rw [ho] at this
                    exact hvo (Option.some.inj this).symm
                  · intro hc
                    exact hvw (Option.some.inj hc).symm
            · exact absurd (hOwner o ho) hoa
      · rw [if_neg hw]
        exact h
  | touchEnd w =>
      simp only [arbiterStep]
      by_cases hw : s.phase w = ResponderPhase.Active
      · rw [if_pos hw]
        intro v
        dsimp only
        by_cases hvw : v = w
        · subst hvw
          rw [setPhase_same]
          simp
        · rw [setPhase_other _ _ _ _ hvw]
          refine iff_of_false ?_ (by simp)
          intro hv
          have h1 := (h v).1 hv
          have h2 := (h w).1 hw
          rw [h1] at h2
          exact hvw (Option.some.inj h2)
      · rw [if_neg hw]
        by_cases hc : s.phase w = ResponderPhase.Claiming
        · rw [if_pos hc]
          intro v
          dsimp only
          by_cases hvw : v = w
          · subst hvw
            rw [setPhase_same]
            refine iff_of_false (by decide) ?_
            intro ho
            exact hw (hOwner v ho)
          · rw [setPhase_other _ _ _ _ hvw]
            exact h v
        · rw [if_neg hc]
          exact h
  | termRequest w =>
      simp only [arbiterStep]
      by_cases hw : s.phase w = ResponderPhase.Active
      · rw [if_pos hw]
        intro v
        dsimp only
        by_cases hvw : v = w
        · subst hvw
          rw [setPhase_same]
          simp
        · rw [setPhase_other _ _ _ _ hvw]
          refine iff_of_false ?_ (by simp)
          intro hv
          have h1 := (h v).1 hv
          have h2 := (h w).1 hw
          rw [h1] at h2
          exact hvw (Option.some.inj h2)
      · rw [if_neg hw]
        exact h
  | unmountWidget w =>
      simp only [arbiterStep]
      by_cases hw : s.phase w = ResponderPhase.Active
      · rw [if_pos hw]
        intro v
        dsimp only
        by_cases hvw : v = w
        · subst hvw
          rw [setPhase_same]
          simp
        · rw [setPhase_other _ _ _ _ hvw]
          refine iff_of_false ?_ (by simp)
          intro hv
          have h1 := (h v).1 hv
          have h2 := (h w).1 hw
          rw [h1] at h2
          exact hvw (Option.some.inj h2)
      · rw [if_neg hw]
        intro v
        dsimp only
        by_cases hvw : v = w
        · subst hvw
          rw [setPhase_same]
          refine iff_of_false (by decide) ?_
          intro ho
          exact hw (hOwner v ho)
        · rw [setPhase_other _ _ _ _ hvw]
          exact h v

theorem arbiterInit_inv : ArbiterInv arbiterInit := by
  intro v
  simp [arbiterInit]

theorem runArbiter_inv (acts : List TouchAction) : ArbiterInv (runArbiter acts) := by
  have hgen : ∀ (l : List TouchAction) (s : ArbiterState), ArbiterInv s →
      ArbiterInv (l.foldl (fun s a => (arbiterStep s a).1) s) := by
    intro l
    induction l with
    | nil => intro s hs; exact hs
    | cons a l ih =>
        intro s hs
        exact ih _ (arbiterStep_inv s a hs)
  exact hgen acts arbiterInit arbiterInit_inv

theorem arbiterStep_loss_notified (s : ArbiterState) (a : TouchAction) (w : Nat)
    (hInv : ArbiterInv s) (hw : s.phase w = ResponderPhase.Active)
    (hl : (arbiterStep s a).1.phase w ≠ ResponderPhase.Active) :
    ResponderNotif.terminate w ∈ (arbiterStep s a).2 ∨
    ResponderNotif.release w ∈ (arbiterStep s a).2 := by
  have hOwn : s.owner = some w := (hInv w).1 hw
  cases a with
  | touchStart u =>
      simp only [arbiterStep] at hl ⊢
      by_cases hu : s.phase u = ResponderPhase.Idle
      · rw [if_pos hu] at hl
        dsimp only at hl
        by_cases hwu : w = u
        · subst hwu
          rw [hw] at hu
          simp at hu
        · rw [setPhase_other _ _ _ _ hwu] at hl
          exact absurd hw hl
      · rw [if_neg hu] at hl
        exact absurd hw hl
  | touchMove u =>
      simp only [arbiterStep] at hl ⊢
      by_cases hu : s.phase u = ResponderPhase.Claiming
      · rw [if_pos hu] at hl ⊢
        rw [hOwn] at hl ⊢
        dsimp only at hl ⊢
        by_cases hwu : w = u
        · rw [if_pos hwu] at hl
          exact absurd hw hl
        · rw [if_neg hwu, if_pos hw] at hl ⊢
          exact Or.inl (by simp)
      · rw [if_neg hu] at hl
        exact absurd hw hl
  | touchEnd u =>
      simp only [arbiterStep] at hl ⊢
      by_cases huA : s.phase u = ResponderPhase.Active
      · rw [if_pos huA] at hl ⊢
        by_cases hwu : w = u
        · subst hwu
          exact Or.inr (by simp)
        · dsimp only at hl
          rw [setPhase_other _ _ _ _ hwu] at hl
          exact absurd hw hl
      · rw [if_neg huA] at hl ⊢
        by_cases huC : s.phase u = ResponderPhase.Claiming
        · rw [if_pos huC] at hl
          dsimp only at hl
          by_cases hwu : w = u
          · subst hwu
            rw [hw] at huC
            simp at huC
          · rw [setPhase_other _ _ _ _ hwu] at hl
            exact absurd hw hl
        · rw [if_neg huC] at hl
          exact absurd hw hl
  | termRequest u =>
      simp only [arbiterStep] at hl ⊢
      by_cases huA : s.phase u = ResponderPhase.Active
      · rw [if_pos huA] at hl ⊢
        by_cases hwu : w = u
        · subst hwu
          exact Or.inl (by simp)
        · dsimp only at hl
          rw [setPhase_other _ _ _ _ hwu] at hl
          exact absurd hw hl
      · rw [if_neg huA] at hl
        exact absurd hw hl
  | unmountWidget u =>
      simp only [arbiterStep] at hl ⊢
      by_cases huA : s.phase u = ResponderPhase.Active
      · rw [if_pos huA] at hl ⊢
        by_cases hwu : w = u
        · subst hwu
          exact Or.inr (by simp)
        · dsimp only at hl
          rw [setPhase_other _ _ _ _ hwu] at hl
          exact absurd hw hl
      · rw [if_neg huA] at hl
        dsimp only at hl
        by_cases hwu : w = u
        · subst hwu
          exact absurd hw huA
        · rw [setPhase_other _ _ _ _ hwu] at hl
          exact absurd hw hl

/-- C4: for every sequence of touch-start/move/end (and termination or
unmount) events across all widget instances sharing the responder
registry, at most one widget is in the `Active` phase at any reachable
instant, and a widget that is `Active` before a step and not after it
always receives a notification in that step — `terminate` when ownership
is taken from it, `release` when it ends or is unmounted; it never loses
ownership silently. -/
theorem responder_exclusive_and_loss_notified :
    (∀ (acts : List TouchAction) (w₁ w₂ : Nat),
      (runArbiter acts).phase w₁ = ResponderPhase.Active →
      (runArbiter acts).phase w₂ = ResponderPhase.Active → w₁ = w₂) ∧
    (∀ (acts : List TouchAction) (a : TouchAction) (w : Nat),
      (runArbiter acts).phase w = ResponderPhase.Active →
      (arbiterStep (runArbiter acts) a).1.phase w ≠ ResponderPhase.Active →
      ResponderNotif.terminate w ∈ (arbiterStep (runArbiter acts) a).2 ∨
      ResponderNotif.release w ∈ (arbiterStep (runArbiter acts) a).2) := by
  constructor
  · intro acts w₁ w₂ h1 h2
    have hInv := runArbiter_inv acts
    have o1 := (hInv w₁).1 h1
    have o2 := (hInv w₂).1 h2
    rw [o1] at o2
    exact Option.some.inj o2
  · intro acts a w hw hl
    exact arbiterStep_loss_notified (runArbiter acts) a w (runArbiter_inv acts) hw hl

/-- Witness for the C4 theorem: after `touchStart 0, touchMove 0` widget 0
is the unique `Active` owner, and a termination request makes it lose
ownership with a `terminate` notification. -/
theorem responder_exclusive_and_loss_notified_witness :
    (0 : Nat) = 0 ∧
    (ResponderNotif.terminate 0 ∈
        (arbiterStep (runArbiter [TouchAction.touchStart 0, TouchAction.touchMove 0])
          (TouchAction.termRequest 0)).2 ∨
      ResponderNotif.release 0 ∈
        (arbiterStep (runArbiter [TouchAction.touchStart 0, TouchAction.touchMove 0])
          (TouchAction.termRequest 0)).2) :=
  ⟨responder_exclusive_and_loss_notified.1
      [TouchAction.touchStart 0, TouchAction.touchMove 0] 0 0 (by decide) (by decide),
    responder_exclusive_and_loss_notified.2
      [TouchAction.touchStart 0, TouchAction.touchMove 0] (TouchAction.termRequest 0) 0
      (by decide) (by decide)⟩

theorem runThrottleFull_sep {E : Type} (i : Nat) (hi : 0 < i) :
    ∀ (events : List (Nat × E)) (s : ThrottleState E),
      (s.pendingArgs.isSome → s.lastInvokedAt.isSome) →
      (∀ p ∈ events, ∀ l, s.lastInvokedAt = some l → l < p.1) →
      List.Pairwise (fun p q : Nat × E => p.1 < q.1) events →
      List.Chain' (fun a b : Nat × E => a.1 + i ≤ b.1) (runThrottleFull i events s) ∧
      (∀ q ∈ runThrottleFull i events s, ∀ l, s.lastInvokedAt = some l → l + i ≤ q.1) := by
  intro events
  induction events with
  | nil =>
      intro s hps hlt _
      rcases s with ⟨last, pending⟩
      cases last with
      | none =>
          cases pending <;> simp [runThrottleFull, runThrottleAux, flushPending]
      | some l =>
          cases pending with
          | none => simp [runThrottleFull, runThrottleAux, flushPending]
          | some e =>
              constructor
              · simp [runThrottleFull, runThrottleAux, flushPending]
              · intro q hq l' hl'
                simp only [runThrottleFull, runThrottleAux, flushPending,
                  List.nil_append, List.mem_singleton] at hq hl'
                simp only [Option.some.injEq] at hl'
                subst hl'
                subst hq
                simp
  | cons p rest ih =>
      intro s hps hlt hpw
      obtain ⟨t, e⟩ := p
      have hi0 : i ≠ 0 := by omega
      have hpwc := List.pairwise_cons.1 hpw
      have htrest : ∀ p ∈ rest, t < p.1 := hpwc.1
      have hpw' := hpwc.2
      rcases s with ⟨last, pending⟩
      cases last with
      | none =>
          have hpend : pending = none := by
            cases pending with
            | none => rfl
            | some e' => simpa using hps (by simp)
          subst hpend
          have hstep : runThrottleFull i ((t, e) :: rest) ⟨none, none⟩ =
              (t, e) :: runThrottleFull i rest ⟨some t, none⟩ := by
            simp [runThrottleFull, runThrottleAux, fireDue, observe, hi0]
          rw [hstep]
          have hIH := ih ⟨some t, none⟩ (by simp)
            (by
              intro p hp l hl
              simp only [Option.some.injEq] at hl
              subst hl
              exact htrest p hp) hpw'
          refine ⟨List.chain'_cons'.2 ⟨?_, hIH.1⟩, ?_⟩
          · intro y hy
            exact hIH.2 y (List.mem_of_mem_head? hy) t rfl
          · intro q hq l hl
            simp at hl
      | some l =>
          have hlt_t : l < t := hlt (t, e) (List.mem_cons_self _ _) l rfl
          have hlt_rest : ∀ p ∈ rest, l < p.1 := fun p hp =>
            hlt p (List.mem_cons_of_mem _ hp) l rfl
          cases pending with
          | none =>
              by_cases hle : l + i ≤ t
              · have hstep : runThrottleFull i ((t, e) :: rest) ⟨some l, none⟩ =
                    (t, e) :: runThrottleFull i rest ⟨some t, none⟩ := by
                  simp [runThrottleFull, runThrottleAux, fireDue, observe, hi0, hle]
                rw [hstep]
                have hIH := ih ⟨some t, none⟩ (by simp)
                  (by
                    intro p hp l' hl'
                    simp only [Option.some.injEq] at hl'
                    subst hl'
                    exact htrest p hp) hpw'
                refine ⟨List.chain'_cons'.2 ⟨?_, hIH.1⟩, ?_⟩
                · intro y hy
                  exact hIH.2 y (List.mem_of_mem_head? hy) t rfl
                · intro q hq l' hl'
                  simp only [Option.some.injEq] at hl'
                  subst hl'
                  rcases List.mem_cons.1 hq with hq | hq
                  · subst hq
                    exact hle
                  · have := hIH.2 q hq t rfl
                    omega
              · have hstep : runThrottleFull i ((t, e) :: rest) ⟨some l, none⟩ =
                    runThrottleFull i rest ⟨some l, some e⟩ := by
                  simp [runThrottleFull, runThrottleAux, fireDue, observe, hi0, hle]
                rw [hstep]
                have hIH := ih ⟨some l, some e⟩ (by simp)
                  (by
                    intro p hp l' hl'
                    simp only [Option.some.injEq] at hl'
                    subst hl'
                    exact hlt_rest p hp) hpw'
                refine ⟨hIH.1, ?_⟩
                intro q hq l' hl'
                simp only [Option.some.injEq] at hl'
                subst hl'
                exact hIH.2 q hq l rfl
          | some ep =>
              by_cases hfire : l + i < t
              · by_cases hle2 : l + i + i ≤ t
                · have hstep : runThrottleFull i ((t, e) :: rest) ⟨some l, some ep⟩ =
                      (l + i, ep) :: (t, e) ::
                        runThrottleFull i rest ⟨some t, none⟩ := by
                    simp [runThrottleFull, runThrottleAux, fireDue, observe, hi0,
                      hfire, hle2]
                  rw [hstep]
                  have hIH := ih ⟨some t, none⟩ (by simp)
                    (by
                      intro p hp l' hl'
                      simp only [Option.some.injEq] at hl'
                      subst hl'
                      exact htrest p hp) hpw'
                  constructor
                  · refine List.chain'_cons'.2 ⟨?_, List.chain'_cons'.2 ⟨?_, hIH.1⟩⟩
                    · intro y hy
                      rcases List.head?_eq_head (l := (t, e) ::
                        runThrottleFull i rest ⟨some t, none⟩) (by simp) with h
                      rw [h] at hy
                      simp only [Option.mem_def, Option.some.injEq] at hy
                      subst hy
                      simpa using hle2
                    · intro y hy
                      exact hIH.2 y (List.mem_of_mem_head? hy) t rfl
                  · intro q hq l' hl'
                    simp only [Option.some.injEq] at hl'
                    subst hl'
                    rcases List.mem_cons.1 hq with hq | hq
                    · subst hq
                      simp
                    · rcases List.mem_cons.1 hq with hq | hq
                      · subst hq
                        omega
                      · have := hIH.2 q hq t rfl
                        omega
                · have hstep : runThrottleFull i ((t, e) :: rest) ⟨some l, some ep⟩ =
                      (l + i, ep) ::
                        runThrottleFull i rest ⟨some (l + i), some e⟩ := by
                    simp [runThrottleFull, runThrottleAux, fireDue, observe, hi0,
                      hfire, hle2]
                  rw [hstep]
                  have hIH := ih ⟨some (l + i), some e⟩ (by simp)
                    (by
                      intro p hp l' hl'
                      simp only [Option.some.injEq] at hl'
                      subst hl'
                      have := htrest p hp
                      omega) hpw'
                  constructor
                  · refine List.chain'_cons'.2 ⟨?_, hIH.1⟩
                    intro y hy
                    exact hIH.2 y (List.mem_of_mem_head? hy) (l + i) rfl
                  · intro q hq l' hl'
                    simp only [Option.some.injEq] at hl'
                    subst hl'
                    rcases List.mem_cons.1 hq with hq | hq
                    · subst hq
                      simp
                    · have := hIH.2 q hq (l + i) rfl
                      omega
              · by_cases hle : l + i ≤ t
                · have hstep : runThrottleFull i ((t, e) :: rest) ⟨some l, some ep⟩ =
                      (t, e) :: runThrottleFull i rest ⟨some t, none⟩ := by
                    simp [runThrottleFull, runThrottleAux, fireDue, observe, hi0,
                      hfire, hle]
                  rw [hstep]
                  have hIH := ih ⟨some t, none⟩ (by simp)
                    (by
                      intro p hp l' hl'
                      simp only [Option.some.injEq] at hl'
                      subst hl'
                      exact htrest p hp) hpw'
                  refine ⟨List.chain'_cons'.2 ⟨?_, hIH.1⟩, ?_⟩
                  · intro y hy
                    exact hIH.2 y (List.mem_of_mem_head? hy) t rfl
                  · intro q hq l' hl'
                    simp only [Option.some.injEq] at hl'
                    subst hl'
                    rcases List.mem_cons.1 hq with hq | hq
                    · subst hq
                      exact hle
                    · have := hIH.2 q hq t rfl
                      omega
                · have hstep : runThrottleFull i ((t, e) :: rest) ⟨some l, some ep⟩ =
                      runThrottleFull i rest ⟨some l, some e⟩ := by
                    simp [runThrottleFull, runThrottleAux, fireDue, observe, hi0,
                      hfire, hle]
                  rw [hstep]
                  have hIH := ih ⟨some l, some e⟩ (by simp)
                    (by
                      intro p hp l' hl'
                      simp only [Option.some.injEq] at hl'
                      subst hl'
                      exact hlt_rest p hp) hpw'
                  refine ⟨hIH.1, ?_⟩
                  intro q hq l' hl'
                  simp only [Option.some.injEq] at hl'
                  subst hl'
                  exact hIH.2 q hq l rfl

theorem stepStateCases {E : Type} (i t : Nat) (e : E) (s : ThrottleState E)
    (hi : 0 < i)
    (hps : s.pendingArgs.isSome → s.lastInvokedAt.isSome)
    (hlt_t : ∀ l, s.lastInvokedAt = some l → l < t) :
    ((observe i t e (fireDue i t s).2).2 = ⟨some t, none⟩ ∧
      ((fireDue i t s).1 ++ (observe i t e (fireDue i t s).2).1).getLast? =
        some (t, e)) ∨
    (∃ l, (observe i t e (fireDue i t s).2).2 = ⟨some l, some e⟩ ∧
      l ≤ t ∧ t < l + i) := by
  have hi0 : i ≠ 0 := by omega
  rcases s with ⟨last, pending⟩
  cases last with
  | none =>
      have hpend : pending = none := by
        cases pending with
        | none => rfl
        | some e' => simpa using hps (by simp)
      subst hpend
      left
      constructor <;> simp [fireDue, observe, hi0]
  | some l =>
      have hlt' : l < t := hlt_t l rfl
      cases pending with
      | none =>
          by_cases hle : l + i ≤ t
          · left
            constructor <;> simp [fireDue, observe, hi0, hle]
          · right
            exact ⟨l, by simp [fireDue, observe, hi0, hle], by omega, by omega⟩
      | some ep =>
          by_cases hfire : l + i < t
          · by_cases hle2 : l + i + i ≤ t
            · left
              constructor <;> simp [fireDue, observe, hi0, hfire, hle2]
            · right
              exact ⟨l + i, by simp [fireDue, observe, hi0, hfire, hle2],
                by omega, by omega⟩
          · by_cases hle : l + i ≤ t
            · left
              constructor <;> simp [fireDue, observe, hi0, hfire, hle]
            · right
              exact ⟨l, by simp [fireDue, observe, hi0, hfire, hle],
                by omega, by omega⟩

theorem runThrottleAux_last {E : Type} (i : Nat) (hi : 0 < i) :
    ∀ (events : List (Nat × E)) (s : ThrottleState E) (tN : Nat) (eN : E),
      events.getLast? = some (tN, eN) →
      (s.pendingArgs.isSome → s.lastInvokedAt.isSome) →
      (∀ p ∈ events, ∀ l, s.lastInvokedAt = some l → l < p.1) →
      List.Pairwise (fun p q : Nat × E => p.1 < q.1) events →
      ((runThrottleAux i events s).2.pendingArgs = none ∧
        (runThrottleAux i events s).1.getLast? = some (tN, eN)) ∨
      (∃ l, (runThrottleAux i events s).2 = ⟨some l, some eN⟩ ∧
        l ≤ tN ∧ tN < l + i) := by
  intro events
  induction events with
  | nil =>
      intro s tN eN hlast _ _ _
      simp at hlast
  | cons p rest ih =>
      intro s tN eN hlast hps hlt hpw
      obtain ⟨t, e⟩ := p
      have hpwc := List.pairwise_cons.1 hpw
      have hstep := stepStateCases i t e s hi hps
        (fun l hl => hlt (t, e) (List.mem_cons_self _ _) l hl)
      cases rest with
      | nil =>
          have hte : t = tN ∧ e = eN := by simpa using hlast
          obtain ⟨rfl, rfl⟩ := hte
          have hres : runThrottleAux i [(t, e)] s =
              ((fireDue i t s).1 ++ (observe i t e (fireDue i t s).2).1,
                (observe i t e (fireDue i t s).2).2) := by
            simp [runThrottleAux]
          rw [hres]
          rcases hstep with ⟨hs2, hout⟩ | ⟨l, hs2, hl1, hl2⟩
          · left
            exact ⟨by rw [hs2], hout⟩
          · right
            exact ⟨l, hs2, hl1, hl2⟩
      | cons p2 rest2 =>
          have hlast' : (p2 :: rest2).getLast? = some (tN, eN) := by
            rw [List.getLast?_cons_cons] at hlast
            exact hlast
          have hs2hyps : ((observe i t e (fireDue i t s).2).2.pendingArgs.isSome →
              (observe i t e (fireDue i t s).2).2.lastInvokedAt.isSome) ∧
              (∀ p ∈ p2 :: rest2, ∀ l,
                (observe i t e (fireDue i t s).2).2.lastInvokedAt = some l →
                  l < p.1) := by
            rcases hstep with ⟨hs2, _⟩ | ⟨l, hs2, hl1, _⟩
            · rw [hs2]
              refine ⟨by simp, ?_⟩
              intro p hp l hl
              simp only [Option.some.injEq] at hl
              have := hpwc.1 p hp
              omega
            · rw [hs2]
              refine ⟨by simp, ?_⟩
              intro p hp l' hl
              simp only [Option.some.injEq] at hl
              have := hpwc.1 p hp
              omega
          have hIH := ih (observe i t e (fireDue i t s).2).2 tN eN hlast'
            hs2hyps.1 hs2hyps.2 hpwc.2
          have hres : runThrottleAux i ((t, e) :: p2 :: rest2) s =
              ((fireDue i t s).1 ++ (observe i t e (fireDue i t s).2).1 ++
                (runThrottleAux i (p2 :: rest2)
                  (observe i t e (fireDue i t s).2).2).1,
                (runThrottleAux i (p2 :: rest2)
                  (observe i t e (fireDue i t s).2).2).2) := rfl
          rw [hres]
          rcases hIH with ⟨hp0, hl0⟩ | ⟨l, hs2, hl1, hl2⟩
          · left
            refine ⟨hp0, ?_⟩
            have hne : (runThrottleAux i (p2 :: rest2)
                (observe i t e (fireDue i t s).2).2).1 ≠ [] := by
              intro hnil
              rw [hnil] at hl0
              simp at hl0
            exact (List.getLast?_append_of_ne_nil _ hne).trans hl0
          · right
            exact ⟨l, hs2, hl1, hl2⟩

theorem flushPending_of_pending_none {E : Type} (i : Nat) (s : ThrottleState E)
    (h : s.pendingArgs = none) : flushPending i s = [] := by
  rcases s with ⟨last, pending⟩
  simp only at h
  subst h
  cases last <;> rfl

theorem throttleRun_head {E : Type} (i t : Nat) (e : E) (rest : List (Nat × E)) :
    (throttleRun i ((t, e) :: rest)).head? = some (t, e) := by
  by_cases h0 : i = 0 <;>
    simp [throttleRun, runThrottleFull, runThrottleAux, fireDue, observe,
      throttleInit, h0]

/-- C3: for every time-ordered burst of scroll events observed with a
positive throttle interval: the first event of the burst (arriving after
the initial quiet period) is forwarded immediately at its own timestamp;
consecutive forwarded calls are at least one interval apart, so at most
one forwarded call occurs per interval window; and the last event of the
burst is eventually forwarded — at or after the moment it occurs and
within one interval of it. -/
theorem throttle_first_immediate_rate_limited_last_delivered {E : Type}
    (i : Nat) (hi : 0 < i) (events : List (Nat × E)) (hne : events ≠ [])
    (hsorted : List.Pairwise (fun p q : Nat × E => p.1 < q.1) events) :
    (throttleRun i events).head? = events.head? ∧
    List.Chain' (fun a b : Nat × E => a.1 + i ≤ b.1) (throttleRun i events) ∧
    ∃ tN eN tf, events.getLast? = some (tN, eN) ∧
      (throttleRun i events).getLast? = some (tf, eN) ∧
      tN ≤ tf ∧ tf ≤ tN + i := by
  obtain ⟨p, rest, rfl⟩ := List.exists_cons_of_ne_nil hne
  obtain ⟨t, e⟩ := p
  refine ⟨?_, ?_, ?_⟩
  · rw [throttleRun_head]
    rfl
  · have hsep := runThrottleFull_sep i hi ((t, e) :: rest) (throttleInit E)
      (by simp [throttleInit]) (by simp [throttleInit]) hsorted
    simpa [throttleRun] using hsep.1
  · have hsome : ((t, e) :: rest).getLast?.isSome := by
      rw [List.getLast?_isSome]
      exact List.cons_ne_nil _ _
    obtain ⟨q, hlast⟩ := Option.isSome_iff_exists.1 hsome
    obtain ⟨tN, eN⟩ := q
    have hL := runThrottleAux_last i hi ((t, e) :: rest) (throttleInit E) tN eN
      hlast (by simp [throttleInit]) (by simp [throttleInit]) hsorted
    rcases hL with ⟨hp0, hl0⟩ | ⟨l, hs2, hl1, hl2⟩
    · refine ⟨tN, eN, tN, hlast, ?_, le_refl _, by omega⟩
      simp only [throttleRun, runThrottleFull]
      rw [flushPending_of_pending_none i _ hp0, List.append_nil]
      exact hl0
    · refine ⟨tN, eN, l + i, hlast, ?_, by omega, by omega⟩
      simp only [throttleRun, runThrottleFull]
      rw [hs2]
      rw [show flushPending i (⟨some l, some eN⟩ : ThrottleState E) =
        [(l + i, eN)] from rfl]
      rw [List.getLast?_append_of_ne_nil _ (List.cons_ne_nil _ _)]
      rfl

/-- Witness for the C3 theorem: interval 100, events at t = 0, 10, 160 —
forwards at t = 0 (immediate), t = 100 (deferred carrying the event
observed at 10) and t = 200 (trailing deferred carrying the final
event). -/
theorem throttle_first_immediate_rate_limited_last_delivered_witness :
    (throttleRun 100 [((0 : Nat), (10 : Nat)), (10, 11), (160, 12)]).head? =
      [((0 : Nat), (10 : Nat)), (10, 11), (160, 12)].head? ∧
    List.Chain' (fun a b : Nat × Nat => a.1 + 100 ≤ b.1)
      (throttleRun 100 [((0 : Nat), (10 : Nat)), (10, 11), (160, 12)]) ∧
    ∃ tN eN tf,
      [((0 : Nat), (10 : Nat)), (10, 11), (160, 12)].getLast? = some (tN, eN) ∧
      (throttleRun 100 [((0 : Nat), (10 : Nat)), (10, 11), (160, 12)]).getLast? =
        some (tf, eN) ∧
      tN ≤ tf ∧ tf ≤ tN + 100 :=
  throttle_first_immediate_rate_limited_last_delivered 100 (by decide)
    [((0 : Nat), (10 : Nat)), (10, 11), (160, 12)] (by decide) (by decide)

end ScrollViewWeb
